import Mathlib

/-!
Shallow embedding of the EnergyDao proposal engine (`src/proposals.rs`).

The repository ships only `proposals.rs`; the policy evaluator
(`policy.rs`), the shared types (`types.rs`) and the upgrade module are
external collaborators.  Following the spec (§1, §6, §9), the policy
evaluator is modelled as an injected capability: a record of functions
(`PolicyEval`) that the proposal engine consumes.  Host-environment
inputs (caller, block height, timestamp) are passed in an `Env` record.
A NEAR contract call that panics reverts every state mutation of the
call, so a panicking Rust function is embedded as `Except String`: an
`error` result leaves the caller's state untouched
(`Contract.act_proposal_commit` makes that transactional reading
explicit).
-/

namespace EnergyDao

abbrev AccountId := String
/-- `OldAccountId` from `types.rs`: "" denotes the native token ($NEAR). -/
abbrev OldAccountId := String
abbrev Balance := Nat
abbrev BlockHeight := Nat
abbrev Base58CryptoHash := String

/-- Modelled from the spec: `OLD_BASE_TOKEN` (from `types.rs`) is the
token identifier denoting the native asset; the source comment on
`Transfer.token_id` says it "Can be \"\" for $NEAR". -/
def OLD_BASE_TOKEN : OldAccountId := ""

/-- Modelled from the spec: `convert_old_to_new_token` (from `types.rs`)
maps the native-asset identifier to `none` and any other token id to
itself. -/
def convert_old_to_new_token (token_id : OldAccountId) : Option AccountId :=
  if token_id = OLD_BASE_TOKEN then none else some token_id

/-- Status of a proposal. -/
inductive ProposalStatus
  | InProgress
  | Approved
  | Rejected
  | Removed
  | Expired
  | Moved
  | Failed
deriving DecidableEq, Repr

/-- Function call arguments. -/
structure ActionCall where
  method_name : String
  args : List Nat
  deposit : Balance
  gas : Nat
deriving DecidableEq, Repr

structure PolicyParameters where
  proposal_period : Option Nat
deriving DecidableEq, Repr

/-- Modelled from the spec: the quorum/threshold shape of a vote policy
lives in the policy collaborator (`policy.rs`, out of scope §1); only
its payload shape is needed by the proposal kinds. -/
structure VotePolicy where
  threshold : Nat
deriving DecidableEq, Repr

/-- Modelled from the spec: a role is a named group of identities with
shared permissions (glossary; `policy.rs` is an external collaborator). -/
structure RolePermission where
  name : String
  members : List AccountId
  permissions : List String
deriving DecidableEq, Repr

/-- Modelled from the spec: the stored policy datum.  The proposal
engine only needs the enumeration of role names (§6) and the payload
shape; quorum math stays behind `PolicyEval`. -/
structure PolicyData where
  roles : List RolePermission
  proposal_period : Nat
deriving DecidableEq, Repr

/-- Modelled from the spec: the versioned policy union; `Current` is
the only supported schema for `ChangePolicy` payloads, the legacy
`Default` variant carries a council list. -/
inductive VersionedPolicy
  | Default (council : List AccountId)
  | Current (policy : PolicyData)
deriving DecidableEq, Repr

/-- Modelled from the spec: the DAO config is an opaque configuration
value (§6, "Config store: get/set a single configuration value"). -/
abbrev Config := String

/-- Kinds of proposals, doing different action. -/
inductive ProposalKind
  | ChangeConfig (config : Config)
  | ChangePolicy (policy : VersionedPolicy)
  | AddMemberToRole (member_id : AccountId) (role : String)
  | RemoveMemberFromRole (member_id : AccountId) (role : String)
  | FunctionCall (receiver_id : AccountId) (actions : List ActionCall)
  | UpgradeSelf (hash : Base58CryptoHash)
  | UpgradeRemote (receiver_id : AccountId) (method_name : String) (hash : Base58CryptoHash)
  | Transfer (token_id : OldAccountId) (receiver_id : AccountId)
      (amount : Balance) (msg : Option String)
  | Vote
  | ChangePolicyAddOrUpdateRole (role : RolePermission)
  | ChangePolicyRemoveRole (role : String)
  | ChangePolicyUpdateDefaultVotePolicy (vote_policy : VotePolicy)
  | ChangePolicyUpdateParameters (parameters : PolicyParameters)
  | Suggestion (suggestion : String)
deriving DecidableEq, Repr

/-- Returns label of policy for given type of proposal. -/
def ProposalKind.to_policy_label : ProposalKind → String
  | .ChangeConfig _ => "config"
  | .ChangePolicy _ => "policy"
  | .AddMemberToRole _ _ => "add_member_to_role"
  | .RemoveMemberFromRole _ _ => "remove_member_from_role"
  | .FunctionCall _ _ => "call"
  | .UpgradeSelf _ => "upgrade_self"
  | .UpgradeRemote _ _ _ => "upgrade_remote"
  | .Transfer _ _ _ _ => "transfer"
  | .Vote => "vote"
  | .ChangePolicyAddOrUpdateRole _ => "policy_add_or_update_role"
  | .ChangePolicyRemoveRole _ => "policy_remove_role"
  | .ChangePolicyUpdateDefaultVotePolicy _ => "policy_update_default_vote_policy"
  | .ChangePolicyUpdateParameters _ => "policy_update_parameters"
  | .Suggestion _ => "give a suggestion"

/-- Votes recorded in the proposal. -/
inductive Vote
  | Approve
  | Reject
  | Remove
deriving DecidableEq, Repr

structure VoteWithTimestamp where
  vote : Vote
  blocknumber : BlockHeight
deriving DecidableEq, Repr

/-- Actions on proposals; `Action` lives in `types.rs`, its variants are
fixed by their uses in `proposals.rs` and the spec's action list (§6). -/
inductive Action
  | AddProposal
  | RemoveProposal
  | VoteApprove
  | VoteReject
  | VoteRemove
  | Finalize
  | MoveToHub
deriving DecidableEq, Repr

/-- `impl From<Action> for Vote`, restricted to the three vote actions
on which it is invoked (the remaining actions are `unreachable!`). -/
def Vote.ofAction : Action → Option Vote
  | .VoteApprove => some .Approve
  | .VoteReject => some .Reject
  | .VoteRemove => some .Remove
  | _ => none

/-- The bucket index of a vote: `vote as usize` (Approve 0, Reject 1,
Remove 2), applied to the `[Balance; 3]` tally triple. -/
def bumpIdx (t : Balance × Balance × Balance) (v : Vote) (amount : Balance) :
    Balance × Balance × Balance :=
  match v with
  | .Approve => (t.1 + amount, t.2.1, t.2.2)
  | .Reject => (t.1, t.2.1 + amount, t.2.2)
  | .Remove => (t.1, t.2.1, t.2.2 + amount)

/-- Projection of the `[Balance; 3]` triple at `vote as usize`. -/
def voteIdx (t : Balance × Balance × Balance) (v : Vote) : Balance :=
  match v with
  | .Approve => t.1
  | .Reject => t.2.1
  | .Remove => t.2.2

/-- Association-list lookup; the embedding of `HashMap`/`LookupMap`
reads.  Maps are updated by prepending, so the most recent binding
shadows older ones, matching overwrite semantics. -/
def lookupA {α β : Type} [DecidableEq α] : List (α × β) → α → Option β
  | [], _ => none
  | (k, v) :: rest, key => if k = key then some v else lookupA rest key

/-- Removal of a key: drops every binding for it (`HashMap::remove` /
`LookupMap::remove`). -/
def removeA {α β : Type} [DecidableEq α] (m : List (α × β)) (k : α) : List (α × β) :=
  m.filter (fun kv => decide (kv.1 ≠ k))

/-- Insert-overwrite (`HashMap::insert` / `LookupMap::insert`). -/
def insertA {α β : Type} [DecidableEq α] (m : List (α × β)) (k : α) (v : β) :
    List (α × β) :=
  (k, v) :: removeA m k

/-- Proposal that are sent to this DAO. -/
structure Proposal where
  proposer : AccountId
  description : String
  kind : ProposalKind
  status : ProposalStatus
  /-- Count of votes per role per decision: yes / no / spam. -/
  vote_counts : List (String × (Balance × Balance × Balance))
  /-- Map of who voted and how. -/
  votes : List (AccountId × VoteWithTimestamp)
  threshold_block : Option BlockHeight
  submission_time : Nat
deriving DecidableEq, Repr

inductive VersionedProposal
  | Default (p : Proposal)
deriving DecidableEq, Repr

/-- `impl From<VersionedProposal> for Proposal`. -/
def VersionedProposal.toProposal : VersionedProposal → Proposal
  | .Default p => p

structure ProposalInput where
  description : String
  kind : ProposalKind
deriving DecidableEq, Repr

structure UserInfo where
  account_id : AccountId
  stake : Balance
deriving DecidableEq, Repr

/-- Host-environment inputs consumed through `near_sdk::env`. -/
structure Env where
  predecessor_account_id : AccountId
  current_account_id : AccountId
  block_height : BlockHeight
  block_timestamp : Nat
deriving DecidableEq, Repr

/-- Modelled from the spec (§6, §9): the policy collaborator
(`policy.rs`, not part of this repository's sources) is an injected
capability exposing permission checks, status derivation, the
token-weighting flag and the role-mutation helpers. -/
structure PolicyEval where
  canExecuteAction : PolicyData → UserInfo → ProposalKind → Action → List String × Bool
  proposalStatus : Env → PolicyData → Proposal → List String → ProposalStatus
  isTokenWeighted : PolicyData → String → String → Bool
  addMemberToRole : PolicyData → String → AccountId → PolicyData
  removeMemberFromRole : PolicyData → String → AccountId → PolicyData
  addOrUpdateRole : PolicyData → RolePermission → PolicyData
  removeRole : PolicyData → String → PolicyData
  updateDefaultVotePolicy : PolicyData → VotePolicy → PolicyData
  updateParameters : PolicyData → PolicyParameters → PolicyData

/-- Modelled from the spec: normalisation of the legacy policy variant
on read ("an explicit upgrade/normalize step executed on every read",
§9); the legacy council list becomes a single all-permission role. -/
def VersionedPolicy.to_policy : VersionedPolicy → PolicyData
  | .Current p => p
  | .Default council =>
      { roles := [{ name := "council", members := council, permissions := ["*:*"] }],
        proposal_period := 604800000000000 }

/-- Externally observable host calls issued by the engine (promises,
upgrade triggers); the embedding of the promise-building collaborators. -/
inductive Effect
  | NativeTransfer (receiver_id : AccountId) (amount : Balance)
  | FtTransfer (token_id : AccountId) (receiver_id : AccountId)
      (amount : Balance) (memo : Option String)
  | FtTransferCall (token_id : AccountId) (receiver_id : AccountId)
      (amount : Balance) (memo : Option String) (msg : String)
  | FunctionCallEff (receiver_id : AccountId) (actions : List ActionCall)
  | UpgradeUsingFactory (hash : Base58CryptoHash)
  | UpgradeRemoteEff (receiver_id : AccountId) (method_name : String)
      (hash : Base58CryptoHash)
  | ScheduleCallback (receiver : AccountId) (proposal_id : Nat)
deriving DecidableEq, Repr

/-- `PromiseOrValue<()>`: either a pending promise (with the effects it
issues) or an immediate value. -/
inductive PromiseOrValue
  | Promise (effects : List Effect)
  | Value
deriving DecidableEq, Repr

/-- Result delivered to a callback.  `PromiseResult::NotReady` is not
modelled: per the spec (§5) an outcome is delivered to the reconciler
only after the effect has fully settled, which is why the source marks
that arm `unreachable!`. -/
inductive PromiseResult
  | Successful (data : List Nat)
  | Failed
deriving DecidableEq, Repr

/-- Contract state touched by the proposal engine. -/
structure Contract where
  config : Config
  policy : VersionedPolicy
  proposals : List (Nat × VersionedProposal)
  last_proposal_id : Nat
deriving DecidableEq, Repr

/-- One iteration of the tally loop in `Proposal::update_votes`:
`vote_counts.entry(role).or_insert([0;3])[vote as usize] += amount`,
with `amount` computed from the token-weighted test (1 on both
branches). -/
def Proposal.bump_vote_count (p : Proposal) (ev : PolicyEval) (policy : PolicyData)
    (vote : Vote) (role : String) : Proposal :=
  let amount : Balance :=
    if ev.isTokenWeighted policy role p.kind.to_policy_label then 1 else 1
  { p with vote_counts :=
      (role, bumpIdx ((lookupA p.vote_counts role).getD (0, 0, 0)) vote amount)
        :: p.vote_counts }

/-- Adds vote of the given user.  If user already voted, fails
(`assert!(… .insert(…).is_none(), "ERR_ALREADY_VOTED")`); the panic
aborts the call, so the embedding returns `Except` with no partial
state. -/
def Proposal.update_votes (p : Proposal) (env : Env) (account_id : AccountId)
    (roles : List String) (vote : Vote) (ev : PolicyEval) (policy : PolicyData) :
    Except String Proposal :=
  let p1 := roles.foldl (fun acc role => acc.bump_vote_count ev policy vote role) p
  if (lookupA p1.votes account_id).isSome then
    .error "ERR_ALREADY_VOTED"
  else
    .ok { p1 with votes :=
      (account_id, { vote := vote, blocknumber := env.block_height }) :: p1.votes }

/-- `impl From<ProposalInput> for Proposal`. -/
def ProposalInput.toProposal (input : ProposalInput) (env : Env) : Proposal :=
  { proposer := env.predecessor_account_id
    description := input.description
    kind := input.kind
    status := .InProgress
    vote_counts := []
    votes := []
    threshold_block := none
    submission_time := env.block_timestamp }

/-- Execute payout of given token to given user
(`Contract::internal_payout`). -/
def Contract.internal_payout (token_id : Option AccountId) (receiver_id : AccountId)
    (amount : Balance) (memo : String) (msg : Option String) : PromiseOrValue :=
  match token_id with
  | none => .Promise [.NativeTransfer receiver_id amount]
  | some t =>
    match msg with
    | some m => .Promise [.FtTransferCall t receiver_id amount (some memo) m]
    | none => .Promise [.FtTransfer t receiver_id amount (some memo)]

def Contract.internal_callback_proposal_success (proposal : Proposal) : Proposal :=
  { proposal with status := .Approved }

def Contract.internal_callback_proposal_fail (proposal : Proposal) : Proposal :=
  { proposal with status := .Failed }

def Contract.internal_user_info (_c : Contract) (env : Env) : UserInfo :=
  { account_id := env.predecessor_account_id, stake := 1 }

/-- Executes given proposal and updates the contract's state
(`Contract::internal_execute_proposal`).  Returns the new state, the
issued effects (with the `on_proposal_callback` continuation appended
when the kind produced a promise) and the emitted logs. -/
def Contract.internal_execute_proposal (c : Contract) (env : Env) (ev : PolicyEval)
    (policy : PolicyData) (proposal : Proposal) (proposal_id : Nat) :
    Contract × List Effect × List String :=
  let step : Contract × List Effect × PromiseOrValue × List String :=
    match proposal.kind with
    | .ChangeConfig config => ({ c with config := config }, [], .Value, [])
    | .ChangePolicy pol => ({ c with policy := pol }, [], .Value, [])
    | .AddMemberToRole member_id role =>
        ({ c with policy := .Current (ev.addMemberToRole policy role member_id) },
          [], .Value, [])
    | .RemoveMemberFromRole member_id role =>
        ({ c with policy := .Current (ev.removeMemberFromRole policy role member_id) },
          [], .Value, [])
    | .FunctionCall receiver_id actions =>
        (c, [], .Promise [.FunctionCallEff receiver_id actions], [])
    | .UpgradeSelf hash => (c, [.UpgradeUsingFactory hash], .Value, [])
    | .UpgradeRemote receiver_id method_name hash =>
        (c, [.UpgradeRemoteEff receiver_id method_name hash], .Value, [])
    | .Transfer token_id receiver_id amount msg =>
        (c, [],
          Contract.internal_payout (convert_old_to_new_token token_id) receiver_id
            amount proposal.description msg, [])
    | .Vote => (c, [], .Value, [])
    | .ChangePolicyAddOrUpdateRole role =>
        ({ c with policy := .Current (ev.addOrUpdateRole policy role) }, [], .Value, [])
    | .ChangePolicyRemoveRole role =>
        ({ c with policy := .Current (ev.removeRole policy role) }, [], .Value, [])
    | .ChangePolicyUpdateDefaultVotePolicy vote_policy =>
        ({ c with policy := .Current (ev.updateDefaultVotePolicy policy vote_policy) },
          [], .Value, [])
    | .ChangePolicyUpdateParameters parameters =>
        ({ c with policy := .Current (ev.updateParameters policy parameters) },
          [], .Value, [])
    | .Suggestion suggestion => (c, [], .Value, [suggestion])
  match step with
  | (c', side, .Promise effs, logs) =>
      (c', side ++ effs ++ [.ScheduleCallback env.current_account_id proposal_id], logs)
  | (c', side, .Value, logs) => (c', side, logs)

/-- The tail of `add_proposal` after the kind validation block:
permission check, then insertion under the counter-assigned id
(steps 2 and 3 of `Contract::add_proposal`). -/
def Contract.add_proposal_unchecked (c : Contract) (env : Env) (ev : PolicyEval)
    (proposal : ProposalInput) : Except String (Contract × Nat) :=
  if (ev.canExecuteAction c.policy.to_policy (c.internal_user_info env)
        proposal.kind .AddProposal).2 then
    .ok ({ c with
            proposals :=
              insertA c.proposals c.last_proposal_id
                (.Default (proposal.toProposal env)),
            last_proposal_id := (c.last_proposal_id + 1) % 2 ^ 64 },
          c.last_proposal_id)
  else .error "ERR_PERMISSION_DENIED"

/-- Add proposal to this DAO (`Contract::add_proposal`): validate the
kind (step 1), then check permission and insert. -/
def Contract.add_proposal (c : Contract) (env : Env) (ev : PolicyEval)
    (proposal : ProposalInput) : Except String (Contract × Nat) :=
  match proposal.kind with
  | .ChangePolicy p =>
    match p with
    | .Current _ => c.add_proposal_unchecked env ev proposal
    | _ => .error "ERR_INVALID_POLICY"
  | .Transfer token_id _ _ msg =>
    if token_id = OLD_BASE_TOKEN ∧ msg.isSome then
      .error "ERR_BASE_TOKEN_NO_MSG"
    else c.add_proposal_unchecked env ev proposal
  | _ => c.add_proposal_unchecked env ev proposal

/-- The vote arm of `act_proposal` (shared by `VoteApprove`,
`VoteReject` and `VoteRemove`). -/
def Contract.act_vote (c : Contract) (env : Env) (ev : PolicyEval) (id : Nat)
    (proposal : Proposal) (policy : PolicyData) (roles : List String)
    (sender_id : AccountId) (vote : Vote) :
    Except String (Contract × List Effect × List String) :=
  if proposal.status = ProposalStatus.InProgress then
    match proposal.update_votes env sender_id roles vote ev policy with
    | .error e => .error e
    | .ok p1 =>
      let p2 := { p1 with status := ev.proposalStatus env policy p1 roles }
      if p2.status = ProposalStatus.Approved then
        let r := c.internal_execute_proposal env ev policy p2 id
        .ok ({ r.1 with proposals := insertA r.1.proposals id (.Default p2) },
          r.2.1, r.2.2)
      else if p2.status = ProposalStatus.Removed then
        .ok ({ c with proposals := removeA c.proposals id }, [], [])
      else
        .ok ({ c with proposals := insertA c.proposals id (.Default p2) }, [], [])
  else .error "ERR_PROPOSAL_NOT_READY_FOR_VOTE"

/-- `Contract::act_proposal` without the final memo log (the memo is
read only by the trailing `log!`). -/
def Contract.act_proposal_inner (c : Contract) (env : Env) (ev : PolicyEval)
    (id : Nat) (action : Action) :
    Except String (Contract × List Effect × List String) :=
  match lookupA c.proposals id with
  | none => .error "ERR_NO_PROPOSAL"
  | some vp =>
    let proposal := vp.toProposal
    let policy := c.policy.to_policy
    let ra := ev.canExecuteAction policy (c.internal_user_info env) proposal.kind action
    if ra.2 then
      let sender_id := env.predecessor_account_id
      match action with
      | .AddProposal => .error "ERR_WRONG_ACTION"
      | .RemoveProposal =>
          .ok ({ c with proposals := removeA c.proposals id }, [], [])
      | .VoteApprove => c.act_vote env ev id proposal policy ra.1 sender_id .Approve
      | .VoteReject => c.act_vote env ev id proposal policy ra.1 sender_id .Reject
      | .VoteRemove => c.act_vote env ev id proposal policy ra.1 sender_id .Remove
      | .Finalize =>
          let p2 := { proposal with
            status := ev.proposalStatus env policy proposal
              (policy.roles.map RolePermission.name) }
          match p2.status with
          | .Approved =>
              let r := c.internal_execute_proposal env ev policy p2 id
              .ok ({ r.1 with proposals := insertA r.1.proposals id (.Default p2) },
                r.2.1, r.2.2)
          | .Expired =>
              .ok ({ c with proposals := insertA c.proposals id (.Default p2) }, [], [])
          | _ => .error "ERR_PROPOSAL_NOT_EXPIRED_OR_FAILED"
      | .MoveToHub => .ok (c, [], [])
    else .error "ERR_PERMISSION_DENIED"

/-- The memo log emitted at the end of `act_proposal`. -/
def memoLog : Option String → List String
  | some m => ["Memo: " ++ m]
  | none => []

/-- Act on given proposal by id, if permissions allow
(`Contract::act_proposal`).  Memo is logged but not stored in the
state. -/
def Contract.act_proposal (c : Contract) (env : Env) (ev : PolicyEval)
    (id : Nat) (action : Action) (memo : Option String) :
    Except String (Contract × List Effect × List String) :=
  match c.act_proposal_inner env ev id action with
  | .error e => .error e
  | .ok (c', effs, logs) => .ok (c', effs, logs ++ memoLog memo)

/-- Transactional view of `act_proposal`: a NEAR panic reverts every
mutation of the call, so an `error` result leaves the state unchanged. -/
def Contract.act_proposal_commit (c : Contract) (env : Env) (ev : PolicyEval)
    (id : Nat) (action : Action) (memo : Option String) : Contract :=
  match c.act_proposal env ev id action memo with
  | .ok (c', _, _) => c'
  | .error _ => c

/-- Receiving callback after the proposal has been finalized
(`Contract::on_proposal_callback`); `results` is the host's promise
result vector (`promise_results_count` / `promise_result`). -/
def Contract.on_proposal_callback (c : Contract) (proposal_id : Nat)
    (results : List PromiseResult) : Except String Contract :=
  match lookupA c.proposals proposal_id with
  | none => .error "ERR_NO_PROPOSAL"
  | some vp =>
    let proposal := vp.toProposal
    match results with
    | [r] =>
      let proposal' :=
        match r with
        | .Successful _ => Contract.internal_callback_proposal_success proposal
        | .Failed => Contract.internal_callback_proposal_fail proposal
      .ok { c with proposals := insertA c.proposals proposal_id (.Default proposal') }
    | _ => .error "ERR_UNEXPECTED_CALLBACK_PROMISES"

/-- Tally bucket read: `vote_counts[role][vote as usize]`, defaulting to
the `or_insert([0;3])` value for an absent role. -/
def voteCount (p : Proposal) (role : String) (v : Vote) : Balance :=
  voteIdx ((lookupA p.vote_counts role).getD (0, 0, 0)) v

theorem bump_vote_count_votes (p : Proposal) (ev : PolicyEval) (policy : PolicyData)
    (v : Vote) (role : String) :
    (p.bump_vote_count ev policy v role).votes = p.votes := rfl

theorem bump_vote_count_kind (p : Proposal) (ev : PolicyEval) (policy : PolicyData)
    (v : Vote) (role : String) :
    (p.bump_vote_count ev policy v role).kind = p.kind := rfl

theorem foldl_bump_votes (roles : List String) (p : Proposal) (ev : PolicyEval)
    (policy : PolicyData) (v : Vote) :
    (roles.foldl (fun acc role => acc.bump_vote_count ev policy v role) p).votes
      = p.votes := by
  induction roles generalizing p with
  | nil => rfl
  | cons a l ih =>
    simp only [List.foldl_cons]
    rw [ih, bump_vote_count_votes]

theorem voteIdx_bumpIdx (t : Balance × Balance × Balance) (v : Vote) (a : Balance) :
    voteIdx (bumpIdx t v a) v = voteIdx t v + a := by
  cases v <;> rfl

theorem voteCount_bump_same (p : Proposal) (ev : PolicyEval) (policy : PolicyData)
    (v : Vote) (role : String) :
    voteCount (p.bump_vote_count ev policy v role) role v = voteCount p role v + 1 := by
  unfold voteCount Proposal.bump_vote_count
  simp only [lookupA, if_pos rfl, Option.getD_some, ite_self]
  exact voteIdx_bumpIdx _ _ _

theorem voteCount_bump_ne (p : Proposal) (ev : PolicyEval) (policy : PolicyData)
    (v v' : Vote) (role r : String) (h : role ≠ r) :
    voteCount (p.bump_vote_count ev policy v role) r v' = voteCount p r v' := by
  unfold voteCount Proposal.bump_vote_count
  simp only [lookupA, if_neg h]

theorem voteCount_foldl_of_not_mem {roles : List String} {r : String} (hr : r ∉ roles)
    (p : Proposal) (ev : PolicyEval) (policy : PolicyData) (v : Vote) :
    voteCount (roles.foldl (fun acc role => acc.bump_vote_count ev policy v role) p) r v
      = voteCount p r v := by
  induction roles generalizing p with
  | nil => rfl
  | cons a l ih =>
    simp only [List.foldl_cons]
    have ha : a ≠ r := fun e => hr (e ▸ List.mem_cons_self a l)
    rw [ih (fun h => hr (List.mem_cons_of_mem _ h)), voteCount_bump_ne _ _ _ _ _ _ _ ha]

theorem voteCount_foldl_of_mem {roles : List String} {r : String} (hnd : roles.Nodup)
    (hr : r ∈ roles) (p : Proposal) (ev : PolicyEval) (policy : PolicyData) (v : Vote) :
    voteCount (roles.foldl (fun acc role => acc.bump_vote_count ev policy v role) p) r v
      = voteCount p r v + 1 := by
  induction roles generalizing p with
  | nil => cases hr
  | cons a l ih =>
    simp only [List.foldl_cons]
    rcases List.nodup_cons.mp hnd with ⟨hal, hl⟩
    rcases List.mem_cons.mp hr with h | h
    · subst h
      rw [voteCount_foldl_of_not_mem hal, voteCount_bump_same]
    · have ha : a ≠ r := fun e => hal (e ▸ h)
      rw [ih hl h, voteCount_bump_ne _ _ _ _ _ _ _ ha]

/-- C2: for every accepted vote (the voter is not yet in `votes`), every
role the voter holds that is applicable to the proposal kind, and every
state of the token-weighted flag in the policy (the theorem quantifies
over all evaluators, hence both branches of `is_token_weighted`),
recording the vote increments `vote_counts[role][vote kind]` by exactly
1 and inserts the voter into `votes` with the chosen vote and the
current block height. -/
theorem update_votes_records_vote (p : Proposal) (env : Env) (account_id : AccountId)
    (roles : List String) (v : Vote) (ev : PolicyEval) (policy : PolicyData)
    (hnew : lookupA p.votes account_id = none) (hnd : roles.Nodup) :
    ∃ p' : Proposal,
      p.update_votes env account_id roles v ev policy = .ok p' ∧
      (∀ r ∈ roles, voteCount p' r v = voteCount p r v + 1) ∧
      p'.votes = (account_id, { vote := v, blocknumber := env.block_height }) :: p.votes := by
  simp only [Proposal.update_votes]
  rw [foldl_bump_votes, hnew]
  simp only [Option.isSome_none, Bool.false_eq_true, if_false, reduceCtorEq]
  refine ⟨_, rfl, ?_, rfl⟩
  intro r hr
  show voteCount (roles.foldl (fun acc role => acc.bump_vote_count ev policy v role) p) r v
      = voteCount p r v + 1
  exact voteCount_foldl_of_mem hnd hr p ev policy v

def pW2 : Proposal :=
  { proposer := "alice", description := "d", kind := .Vote, status := .InProgress,
    vote_counts := [], votes := [], threshold_block := none, submission_time := 0 }

def envW : Env :=
  { predecessor_account_id := "bob", current_account_id := "dao",
    block_height := 5, block_timestamp := 10 }

/-- A permissive evaluator: everyone may do everything under the single
role "council"; status derivation returns the stored status. -/
def evW : PolicyEval :=
  { canExecuteAction := fun _ _ _ _ => (["council"], true)
    proposalStatus := fun _ _ p _ => p.status
    isTokenWeighted := fun _ _ _ => false
    addMemberToRole := fun p _ _ => p
    removeMemberFromRole := fun p _ _ => p
    addOrUpdateRole := fun p _ => p
    removeRole := fun p _ => p
    updateDefaultVotePolicy := fun p _ => p
    updateParameters := fun p _ => p }

def polW : PolicyData :=
  { roles := [{ name := "council", members := ["bob"], permissions := ["*:*"] }],
    proposal_period := 100 }

theorem update_votes_records_vote_witness :
    lookupA pW2.votes "bob" = none ∧ (["council"] : List String).Nodup ∧
    ∃ p' : Proposal,
      pW2.update_votes envW "bob" ["council"] .Approve evW polW = .ok p' ∧
      (∀ r ∈ (["council"] : List String),
        voteCount p' r .Approve = voteCount pW2 r .Approve + 1) ∧
      p'.votes = ("bob", { vote := .Approve, blocknumber := envW.block_height }) :: pW2.votes :=
  ⟨rfl, by decide,
    update_votes_records_vote pW2 envW "bob" ["council"] .Approve evW polW rfl (by decide)⟩

/-- C1: a vote action (`VoteApprove`, `VoteReject` or `VoteRemove`) by
an account that already appears in the proposal's `votes` map fails
with `ERR_ALREADY_VOTED`, and — since a panic aborts the whole call —
the committed state (hence `vote_counts` and `votes`) is unchanged:
the duplicate-vote check and the tally mutation are all-or-nothing. -/
theorem act_proposal_double_vote_rejected (c : Contract) (env : Env) (ev : PolicyEval)
    (id : Nat) (vp : VersionedProposal) (action : Action) (memo : Option String)
    (hp : lookupA c.proposals id = some vp)
    (hst : vp.toProposal.status = .InProgress)
    (hact : action = .VoteApprove ∨ action = .VoteReject ∨ action = .VoteRemove)
    (hallow : (ev.canExecuteAction c.policy.to_policy (c.internal_user_info env)
        vp.toProposal.kind action).2 = true)
    (hvoted : (lookupA vp.toProposal.votes env.predecessor_account_id).isSome = true) :
    c.act_proposal env ev id action memo = .error "ERR_ALREADY_VOTED" ∧
    c.act_proposal_commit env ev id action memo = c := by
  have hvote : ∀ v : Vote,
      c.act_vote env ev id vp.toProposal c.policy.to_policy
        (ev.canExecuteAction c.policy.to_policy (c.internal_user_info env)
          vp.toProposal.kind action).1
        env.predecessor_account_id v = .error "ERR_ALREADY_VOTED" := by
    intro v
    simp only [Contract.act_vote, hst, if_pos, Proposal.update_votes]
    rw [foldl_bump_votes, hvoted]
    simp
  have hinner : c.act_proposal_inner env ev id action = .error "ERR_ALREADY_VOTED" := by
    simp only [Contract.act_proposal_inner, hp]
    rw [if_pos hallow]
    rcases hact with h | h | h <;> subst h <;> exact hvote _
  refine ⟨?_, ?_⟩
  · simp only [Contract.act_proposal, hinner]
  · simp only [Contract.act_proposal_commit, Contract.act_proposal, hinner]

def pW1 : Proposal :=
  { pW2 with votes := [("bob", { vote := .Approve, blocknumber := 3 })] }

def cW1 : Contract :=
  { config := "cfg", policy := .Current polW,
    proposals := [(0, .Default pW1)], last_proposal_id := 1 }

theorem act_proposal_double_vote_rejected_witness :
    lookupA cW1.proposals 0 = some (.Default pW1) ∧
    (VersionedProposal.Default pW1).toProposal.status = .InProgress ∧
    (lookupA (VersionedProposal.Default pW1).toProposal.votes
      envW.predecessor_account_id).isSome = true ∧
    cW1.act_proposal envW evW 0 .VoteApprove none = .error "ERR_ALREADY_VOTED" ∧
    cW1.act_proposal_commit envW evW 0 .VoteApprove none = cW1 := by
  have h := act_proposal_double_vote_rejected cW1 envW evW 0 (.Default pW1) .VoteApprove
    none (by decide) (by decide) (Or.inl rfl) (by decide) (by decide)
  exact ⟨by decide, by decide, by decide, h.1, h.2⟩

/-- C4: `on_proposal_callback` on a known proposal id fails with the
unexpected-callback-shape error unless exactly one completion outcome
is present; given exactly one outcome it sets the status to `Approved`
on success and `Failed` on failure, and writes the record back to the
store unconditionally. -/
theorem on_proposal_callback_reconciles (c : Contract) (pid : Nat)
    (vp : VersionedProposal) (hp : lookupA c.proposals pid = some vp) :
    (∀ data, c.on_proposal_callback pid [.Successful data]
        = .ok { c with proposals := insertA c.proposals pid (.Default { vp.toProposal with status := .Approved }) }) ∧
    (c.on_proposal_callback pid [.Failed]
        = .ok { c with proposals := insertA c.proposals pid (.Default { vp.toProposal with status := .Failed }) }) ∧
    (∀ results : List PromiseResult, results.length ≠ 1 →
        c.on_proposal_callback pid results = .error "ERR_UNEXPECTED_CALLBACK_PROMISES") := by
  refine ⟨?_, ?_, ?_⟩
  · intro data
    simp only [Contract.on_proposal_callback, hp,
      Contract.internal_callback_proposal_success]
  · simp only [Contract.on_proposal_callback, hp,
      Contract.internal_callback_proposal_fail]
  · intro results hlen
    simp only [Contract.on_proposal_callback, hp]
    cases results with
    | nil => rfl
    | cons r rest =>
      cases rest with
      | nil => exact absurd rfl hlen
      | cons r2 rest2 => rfl

theorem on_proposal_callback_reconciles_witness :
    lookupA cW1.proposals 0 = some (.Default pW1) ∧
    (∀ data, cW1.on_proposal_callback 0 [.Successful data]
        = .ok { cW1 with proposals := insertA cW1.proposals 0 (.Default { pW1 with status := .Approved }) }) ∧
    cW1.on_proposal_callback 0 [.Failed]
      = .ok { cW1 with proposals := insertA cW1.proposals 0 (.Default { pW1 with status := .Failed }) } ∧
    cW1.on_proposal_callback 0 [] = .error "ERR_UNEXPECTED_CALLBACK_PROMISES" := by
  have h := on_proposal_callback_reconciles cW1 0 (.Default pW1) (by decide)
  exact ⟨by decide, h.1, h.2.1, h.2.2 [] (by decide)⟩

/-- C5: for an approved `Transfer` proposal, execution issues exactly
one payout effect — a native value transfer when the token id denotes
the native asset (and no token-collaborator call), `ft_transfer_call`
with the message when `msg` is present, `ft_transfer` otherwise, both
with the proposal description as memo — plus the reconciliation
callback continuation. -/
theorem internal_execute_transfer_payout (c : Contract) (env : Env) (ev : PolicyEval)
    (policy : PolicyData) (pid : Nat) (proposer descr : String)
    (tok : OldAccountId) (recv : AccountId) (amount : Balance) (msg : Option String)
    (status : ProposalStatus) (vc : List (String × (Balance × Balance × Balance)))
    (votes : List (AccountId × VoteWithTimestamp)) (tb : Option BlockHeight) (st : Nat) :
    (c.internal_execute_proposal env ev policy
        { proposer := proposer, description := descr,
          kind := .Transfer tok recv amount msg, status := status,
          vote_counts := vc, votes := votes, threshold_block := tb,
          submission_time := st } pid).2.1
      = (if tok = OLD_BASE_TOKEN then
            [.NativeTransfer recv amount]
          else
            match msg with
            | some m => [.FtTransferCall tok recv amount (some descr) m]
            | none => [.FtTransfer tok recv amount (some descr)])
          ++ [.ScheduleCallback env.current_account_id pid] := by
  by_cases h : tok = OLD_BASE_TOKEN <;>
    simp only [Contract.internal_execute_proposal, Contract.internal_payout,
      convert_old_to_new_token, h, if_true, if_false, ite_true, ite_false] <;>
    cases msg <;> rfl

theorem add_proposal_unchecked_not_base (c : Contract) (env : Env)
    (ev : PolicyEval) (input : ProposalInput) :
    c.add_proposal_unchecked env ev input ≠ .error "ERR_BASE_TOKEN_NO_MSG" := by
  unfold Contract.add_proposal_unchecked
  split <;> simp

/-- C7: `add_proposal` fails with the base-token-message error exactly
when the kind is a `Transfer` on the native asset carrying a message;
every other input passes this validation (it may still fail on other
grounds, with a different error). -/
theorem add_proposal_base_token_msg_check (c : Contract) (env : Env) (ev : PolicyEval)
    (input : ProposalInput) :
    c.add_proposal env ev input = .error "ERR_BASE_TOKEN_NO_MSG" ↔
      (match input.kind with
        | .Transfer token_id _ _ msg => token_id = OLD_BASE_TOKEN ∧ msg.isSome = true
        | _ => False) := by
  obtain ⟨descr, kind⟩ := input
  cases kind
  case ChangePolicy vp =>
    cases vp with
    | Default council => simp [Contract.add_proposal]
    | Current pol => simp [Contract.add_proposal, add_proposal_unchecked_not_base]
  case Transfer tok recv amt msg =>
    simp only [Contract.add_proposal]
    by_cases hv : tok = OLD_BASE_TOKEN ∧ msg.isSome = true
    · rw [if_pos hv]
      simp [hv.1, hv.2]
    · rw [if_neg hv]
      simp [add_proposal_unchecked_not_base, hv]
  all_goals simp [Contract.add_proposal, add_proposal_unchecked_not_base]

/-- C10: the optional memo argument of `act_proposal` never affects the
stored proposal record or any other contract state: the resulting state
and issued effects are identical whether the memo is `none` or any
`some` value; the memo is only logged. -/
theorem act_proposal_memo_frame (c : Contract) (env : Env) (ev : PolicyEval)
    (id : Nat) (action : Action) (memo : Option String) :
    (c.act_proposal env ev id action memo).map (fun r => (r.1, r.2.1))
      = (c.act_proposal env ev id action none).map (fun r => (r.1, r.2.1)) ∧
    c.act_proposal_commit env ev id action memo
      = c.act_proposal_commit env ev id action none := by
  cases h : c.act_proposal_inner env ev id action with
  | error e => simp [Contract.act_proposal, Contract.act_proposal_commit, h]
  | ok r =>
    obtain ⟨c', effs, logs⟩ := r
    simp [Contract.act_proposal, Contract.act_proposal_commit, h, Except.map]

theorem lookupA_insertA_same {α β : Type} [DecidableEq α] (m : List (α × β))
    (k : α) (v : β) : lookupA (insertA m k v) k = some v := by
  simp [insertA, lookupA]

/-- The action corresponding to a vote kind (the inverse direction of
`impl From<Action> for Vote`). -/
def Vote.toAction : Vote → Action
  | .Approve => .VoteApprove
  | .Reject => .VoteReject
  | .Remove => .VoteRemove

/-- The status of the record stored under `id` after a call, `none`
when the call failed or the record is absent. -/
def storedStatus (r : Except String (Contract × List Effect × List String))
    (id : Nat) : Option ProposalStatus :=
  match r with
  | .ok (c, _, _) => (lookupA c.proposals id).map (fun vp => vp.toProposal.status)
  | .error _ => none

/-- The effects issued by a successful call. -/
def actEffects (r : Except String (Contract × List Effect × List String)) :
    Option (List Effect) :=
  match r with
  | .ok (_, effs, _) => some effs
  | .error _ => none

/-- The vote arm stores exactly the evaluator-derived status (shape of
`act_vote` after a successful `update_votes`). -/
theorem act_vote_shape (c : Contract) (env : Env) (ev : PolicyEval) (id : Nat)
    (p : Proposal) (policy : PolicyData) (roles : List String) (sender : AccountId)
    (v : Vote) (p1 : Proposal)
    (hst : p.status = .InProgress)
    (hup : p.update_votes env sender roles v ev policy = .ok p1) :
    c.act_vote env ev id p policy roles sender v =
      (if ev.proposalStatus env policy p1 roles = .Approved then
        (let r := c.internal_execute_proposal env ev policy
          { p1 with status := ev.proposalStatus env policy p1 roles } id
         .ok ({ r.1 with proposals := insertA r.1.proposals id (.Default { p1 with status := ev.proposalStatus env policy p1 roles }) }, r.2.1, r.2.2))
      else if ev.proposalStatus env policy p1 roles = .Removed then
        .ok ({ c with proposals := removeA c.proposals id }, [], [])
      else
        .ok ({ c with proposals := insertA c.proposals id (.Default { p1 with status := ev.proposalStatus env policy p1 roles }) }, [], [])) := by
  unfold Contract.act_vote
  rw [hst, hup]
  rfl

/-- C3 (amended): after an accepted vote on an `InProgress` proposal,
the stored status is exactly the status the policy evaluator derives
(when that status is `Removed` the record is deleted instead).  In
particular a vote deriving `InProgress` (no quorum met) leaves the
proposal `InProgress`; but since the evaluator supplies expiry
semantics, the derived — and hence stored — status can also be
`Expired`: nothing in the vote branch filters it out. -/
theorem act_vote_stores_derived_status (c : Contract) (env : Env) (ev : PolicyEval)
    (id : Nat) (vp : VersionedProposal) (v : Vote) (memo : Option String) (p1 : Proposal)
    (hp : lookupA c.proposals id = some vp)
    (hst : vp.toProposal.status = .InProgress)
    (hallow : (ev.canExecuteAction c.policy.to_policy (c.internal_user_info env)
        vp.toProposal.kind v.toAction).2 = true)
    (hup : vp.toProposal.update_votes env env.predecessor_account_id
        (ev.canExecuteAction c.policy.to_policy (c.internal_user_info env)
          vp.toProposal.kind v.toAction).1 v ev c.policy.to_policy = .ok p1)
    (hnr : ev.proposalStatus env c.policy.to_policy p1
        (ev.canExecuteAction c.policy.to_policy (c.internal_user_info env)
          vp.toProposal.kind v.toAction).1 ≠ .Removed) :
    storedStatus (c.act_proposal env ev id v.toAction memo) id
      = some (ev.proposalStatus env c.policy.to_policy p1
          (ev.canExecuteAction c.policy.to_policy (c.internal_user_info env)
            vp.toProposal.kind v.toAction).1) := by
  have hinner : c.act_proposal_inner env ev id v.toAction
      = c.act_vote env ev id vp.toProposal c.policy.to_policy
          (ev.canExecuteAction c.policy.to_policy (c.internal_user_info env)
            vp.toProposal.kind v.toAction).1 env.predecessor_account_id v := by
    cases v <;>
      (simp only [Vote.toAction] at hallow ⊢;
       simp only [Contract.act_proposal_inner, hp];
       rw [if_pos hallow])
  have hco := hinner.trans (act_vote_shape c env ev id vp.toProposal c.policy.to_policy
    (ev.canExecuteAction c.policy.to_policy (c.internal_user_info env)
      vp.toProposal.kind v.toAction).1 env.predecessor_account_id v p1 hst hup)
  cases hd : ev.proposalStatus env c.policy.to_policy p1
      (ev.canExecuteAction c.policy.to_policy (c.internal_user_info env)
        vp.toProposal.kind v.toAction).1 <;>
    first
    | exact absurd hd hnr
    | (rw [hd] at hco;
       simp only [reduceIte] at hco;
       simp [Contract.act_proposal, hco, storedStatus, lookupA_insertA_same,
         VersionedProposal.toProposal])

/-- Modelled from the spec: a policy evaluator whose status derivation
implements lazy time-based expiry — "supplies quorum/threshold/expiry
semantics" (§2), evaluated "by comparing current time/height against
policy-defined periods" (§5): past the proposal period the status is
reported `Expired`, otherwise the stored status is kept. -/
def evExpiry : PolicyEval :=
  { evW with
    proposalStatus := fun env policy p _ =>
      if p.submission_time + policy.proposal_period ≤ env.block_timestamp then
        .Expired
      else p.status }

def cX3 : Contract :=
  { config := "cfg", policy := .Current polW,
    proposals := [(0, .Default pW2)], last_proposal_id := 1 }

def envX3 : Env := { envW with block_timestamp := 1000 }

/-- C3 counterexample: with the evaluator's lazy expiry semantics, an
accepted vote on an `InProgress` proposal whose voting period has
elapsed stores status `Expired` — a vote action does produce a stored
`Expired`, contradicting the claim that only `Finalize` can. -/
theorem vote_stores_expired_counterexample :
    storedStatus (cX3.act_proposal envX3 evExpiry 0 .VoteApprove none) 0
      = some .Expired := by decide

def pX3v : Proposal :=
  { pW2 with
    vote_counts := [("council", (1, 0, 0))]
    votes := [("bob", { vote := .Approve, blocknumber := 5 })] }

theorem act_vote_stores_derived_status_witness :
    lookupA cX3.proposals 0 = some (.Default pW2) ∧
    pW2.status = .InProgress ∧
    pW2.update_votes envW "bob" ["council"] .Approve evW cX3.policy.to_policy
      = .ok pX3v ∧
    storedStatus (cX3.act_proposal envW evW 0 .VoteApprove none) 0
      = some .InProgress := by
  have h := act_vote_stores_derived_status cX3 envW evW 0 (.Default pW2) .Approve
    none pX3v (by decide) (by decide) (by decide) rfl (by decide)
  exact ⟨by decide, by decide, rfl, h⟩

/-- C6: a `Finalize` action for which the re-derived status (over all
role names of the policy) is neither `Approved` nor `Expired` fails
with the not-eligible-for-finalization error. -/
theorem finalize_not_eligible (c : Contract) (env : Env) (ev : PolicyEval)
    (id : Nat) (vp : VersionedProposal) (memo : Option String)
    (hp : lookupA c.proposals id = some vp)
    (hallow : (ev.canExecuteAction c.policy.to_policy (c.internal_user_info env)
        vp.toProposal.kind .Finalize).2 = true)
    (hna : ev.proposalStatus env c.policy.to_policy vp.toProposal
        ((c.policy.to_policy).roles.map RolePermission.name) ≠ .Approved)
    (hne : ev.proposalStatus env c.policy.to_policy vp.toProposal
        ((c.policy.to_policy).roles.map RolePermission.name) ≠ .Expired) :
    c.act_proposal env ev id .Finalize memo
      = .error "ERR_PROPOSAL_NOT_EXPIRED_OR_FAILED" := by
  have key : c.act_proposal_inner env ev id .Finalize
      = .error "ERR_PROPOSAL_NOT_EXPIRED_OR_FAILED" := by
    simp only [Contract.act_proposal_inner, hp]
    rw [if_pos hallow]
  simp only [Contract.act_proposal, key]

/-- C6 witness: `Finalize` on a proposal still within its voting period
(lazy-expiry evaluator, current time before the period's end) and not
`Failed` fails with the not-eligible error. -/
theorem finalize_not_eligible_witness :
    lookupA cX3.proposals 0 = some (.Default pW2) ∧
    pW2.status = .InProgress ∧
    evExpiry.proposalStatus envW cX3.policy.to_policy pW2
        ((cX3.policy.to_policy).roles.map RolePermission.name) = .InProgress ∧
    cX3.act_proposal envW evExpiry 0 .Finalize none
      = .error "ERR_PROPOSAL_NOT_EXPIRED_OR_FAILED" :=
  ⟨by decide, by decide, by decide,
    finalize_not_eligible cX3 envW evExpiry 0 (.Default pW2) none
      (by decide) (by decide) (by decide) (by decide)⟩

/-- C9: `Finalize` imposes no precondition on the proposal's current
status (no hypothesis below constrains it): the status is re-derived by
the policy over all role names and, whenever the derived status is
`Approved`, execution is dispatched again — the stored status is
`Approved` and the issued effects are exactly those of a fresh
execution dispatch. -/
theorem finalize_redispatches_when_approved (c : Contract) (env : Env)
    (ev : PolicyEval) (id : Nat) (vp : VersionedProposal) (memo : Option String)
    (hp : lookupA c.proposals id = some vp)
    (hallow : (ev.canExecuteAction c.policy.to_policy (c.internal_user_info env)
        vp.toProposal.kind .Finalize).2 = true)
    (hd : ev.proposalStatus env c.policy.to_policy vp.toProposal
        ((c.policy.to_policy).roles.map RolePermission.name) = .Approved) :
    storedStatus (c.act_proposal env ev id .Finalize memo) id = some .Approved ∧
    actEffects (c.act_proposal env ev id .Finalize memo)
      = some (c.internal_execute_proposal env ev c.policy.to_policy
          { vp.toProposal with status := .Approved } id).2.1 := by
  have key : c.act_proposal_inner env ev id .Finalize
      = (let r := c.internal_execute_proposal env ev c.policy.to_policy
            { vp.toProposal with status := .Approved } id
         .ok ({ r.1 with proposals := insertA r.1.proposals id (.Default { vp.toProposal with status := .Approved }) }, r.2.1, r.2.2)) := by
    simp only [Contract.act_proposal_inner, hp]
    rw [if_pos hallow]
    rw [hd]
  constructor
  · simp [Contract.act_proposal, key, storedStatus, lookupA_insertA_same,
      VersionedProposal.toProposal]
  · simp [Contract.act_proposal, key, actEffects]

def pX9 : Proposal :=
  { pW2 with kind := .Transfer "" "carol" 500 none, status := .Approved }

def cX9 : Contract :=
  { config := "cfg", policy := .Current polW,
    proposals := [(7, .Default pX9)], last_proposal_id := 8 }

/-- An evaluator that derives `Approved` (the spec's "PolicyEvaluator
reports still Approved" scenario). -/
def evApproved : PolicyEval :=
  { evW with proposalStatus := fun _ _ _ _ => .Approved }

/-- C9 witness: an already-`Approved` transfer proposal is re-dispatched
(one more native transfer is issued) by a later `Finalize`. -/
theorem finalize_redispatches_when_approved_witness :
    pX9.status = .Approved ∧
    lookupA cX9.proposals 7 = some (.Default pX9) ∧
    storedStatus (cX9.act_proposal envW evApproved 7 .Finalize none) 7
      = some .Approved ∧
    actEffects (cX9.act_proposal envW evApproved 7 .Finalize none)
      = some [.NativeTransfer "carol" 500, .ScheduleCallback "dao" 7] := by
  have h := finalize_redispatches_when_approved cX9 envW evApproved 7 (.Default pX9)
    none (by decide) (by decide) (by decide)
  refine ⟨by decide, by decide, h.1, ?_⟩
  rw [h.2]
  decide

theorem internal_execute_last_id (c : Contract) (env : Env) (ev : PolicyEval)
    (policy : PolicyData) (p : Proposal) (pid : Nat) :
    (c.internal_execute_proposal env ev policy p pid).1.last_proposal_id
      = c.last_proposal_id := by
  unfold Contract.internal_execute_proposal Contract.internal_payout
  cases p.kind <;> try rfl
  rename_i token_id receiver_id amount msg
  cases hc : convert_old_to_new_token token_id <;> cases msg <;>
    first | rfl | simp [hc]

theorem act_vote_last_id (c : Contract) (env : Env) (ev : PolicyEval) (id : Nat)
    (p : Proposal) (policy : PolicyData) (roles : List String) (sender : AccountId)
    (v : Vote) (c' : Contract) (effs : List Effect) (logs : List String)
    (h : c.act_vote env ev id p policy roles sender v = .ok (c', effs, logs)) :
    c'.last_proposal_id = c.last_proposal_id := by
  by_cases hst : p.status = ProposalStatus.InProgress
  · cases hup : p.update_votes env sender roles v ev policy with
    | error e =>
        unfold Contract.act_vote at h
        rw [if_pos hst, hup] at h
        exact Except.noConfusion h
    | ok p1 =>
        rw [act_vote_shape c env ev id p policy roles sender v p1 hst hup] at h
        by_cases h1 : ev.proposalStatus env policy p1 roles = ProposalStatus.Approved
        · rw [if_pos h1] at h
          simp only [Except.ok.injEq, Prod.mk.injEq] at h
          obtain ⟨hc, -, -⟩ := h
          rw [← hc]
          exact internal_execute_last_id c env ev policy _ id
        · rw [if_neg h1] at h
          by_cases h2 : ev.proposalStatus env policy p1 roles = ProposalStatus.Removed
          · rw [if_pos h2] at h
            simp only [Except.ok.injEq, Prod.mk.injEq] at h
            obtain ⟨hc, -, -⟩ := h
            rw [← hc]
          · rw [if_neg h2] at h
            simp only [Except.ok.injEq, Prod.mk.injEq] at h
            obtain ⟨hc, -, -⟩ := h
            rw [← hc]
  · unfold Contract.act_vote at h
    rw [if_neg hst] at h
    exact Except.noConfusion h

theorem ok_last_of_eq {r : Contract × List Effect × List String} {c' : Contract}
    {effs : List Effect} {logs : List String}
    (h : (Except.ok r : Except String (Contract × List Effect × List String))
      = .ok (c', effs, logs)) :
    c'.last_proposal_id = r.1.last_proposal_id := by
  rw [Except.ok.inj h]

theorem act_proposal_inner_last_id (c : Contract) (env : Env) (ev : PolicyEval)
    (id : Nat) (action : Action) (c' : Contract) (effs : List Effect)
    (logs : List String)
    (h : c.act_proposal_inner env ev id action = .ok (c', effs, logs)) :
    c'.last_proposal_id = c.last_proposal_id := by
  cases hl : lookupA c.proposals id with
  | none =>
      simp only [Contract.act_proposal_inner, hl] at h
      exact Except.noConfusion h
  | some vp =>
      by_cases hperm : (ev.canExecuteAction c.policy.to_policy
          (c.internal_user_info env) vp.toProposal.kind action).2 = true
      · cases action with
        | AddProposal =>
            simp only [Contract.act_proposal_inner, hl] at h
            rw [if_pos hperm] at h
            exact Except.noConfusion h
        | RemoveProposal =>
            simp only [Contract.act_proposal_inner, hl] at h
            rw [if_pos hperm] at h
            rw [ok_last_of_eq h]
        | VoteApprove =>
            simp only [Contract.act_proposal_inner, hl] at h
            rw [if_pos hperm] at h
            exact act_vote_last_id c env ev id _ _ _ _ _ c' effs logs h
        | VoteReject =>
            simp only [Contract.act_proposal_inner, hl] at h
            rw [if_pos hperm] at h
            exact act_vote_last_id c env ev id _ _ _ _ _ c' effs logs h
        | VoteRemove =>
            simp only [Contract.act_proposal_inner, hl] at h
            rw [if_pos hperm] at h
            exact act_vote_last_id c env ev id _ _ _ _ _ c' effs logs h
        | Finalize =>
            simp only [Contract.act_proposal_inner, hl] at h
            rw [if_pos hperm] at h
            cases hd : ev.proposalStatus env c.policy.to_policy vp.toProposal
                (List.map RolePermission.name c.policy.to_policy.roles) <;>
              rw [hd] at h <;>
              first
              | exact Except.noConfusion h
              | (rw [ok_last_of_eq h]
                 exact internal_execute_last_id c env ev _ _ id)
              | rw [ok_last_of_eq h]
        | MoveToHub =>
            simp only [Contract.act_proposal_inner, hl] at h
            rw [if_pos hperm] at h
            rw [ok_last_of_eq h]
      · cases action <;>
          simp only [Contract.act_proposal_inner, hl] at h <;>
          rw [if_neg hperm] at h <;>
          exact Except.noConfusion h

theorem act_proposal_commit_last_id (c : Contract) (env : Env) (ev : PolicyEval)
    (id : Nat) (action : Action) (memo : Option String) :
    (c.act_proposal_commit env ev id action memo).last_proposal_id
      = c.last_proposal_id := by
  unfold Contract.act_proposal_commit Contract.act_proposal
  cases hres : c.act_proposal_inner env ev id action with
  | error e => rfl
  | ok r =>
    obtain ⟨c', effs, logs⟩ := r
    exact act_proposal_inner_last_id c env ev id action c' effs logs hres

theorem on_proposal_callback_last_id (c : Contract) (pid : Nat)
    (results : List PromiseResult) (c' : Contract)
    (h : c.on_proposal_callback pid results = .ok c') :
    c'.last_proposal_id = c.last_proposal_id := by
  unfold Contract.on_proposal_callback at h
  split at h
  · exact Except.noConfusion h
  · split at h
    · simp only [Except.ok.injEq] at h
      rw [← h]
    · exact Except.noConfusion h

/-- `add_proposal`, when it succeeds, returns the current counter value
and increments the counter by one (modulo the `u64` width). -/
theorem add_proposal_ok (c : Contract) (env : Env) (ev : PolicyEval)
    (input : ProposalInput) (c' : Contract) (id : Nat)
    (h : c.add_proposal env ev input = .ok (c', id)) :
    id = c.last_proposal_id ∧
    c'.last_proposal_id = (c.last_proposal_id + 1) % 2 ^ 64 := by
  have key : ∀ c'' id2,
      c.add_proposal_unchecked env ev input = .ok (c'', id2) →
      id2 = c.last_proposal_id ∧
      c''.last_proposal_id = (c.last_proposal_id + 1) % 2 ^ 64 := by
    intro c'' id2 hu
    unfold Contract.add_proposal_unchecked at hu
    by_cases hperm : (ev.canExecuteAction c.policy.to_policy
        (c.internal_user_info env) input.kind .AddProposal).2 = true
    · rw [if_pos hperm] at hu
      have h2 := Except.ok.inj hu
      simp only [Prod.mk.injEq] at h2
      obtain ⟨hc, hid⟩ := h2
      exact ⟨hid.symm, by rw [← hc]⟩
    · rw [if_neg hperm] at hu
      exact Except.noConfusion hu
  obtain ⟨descr, kind⟩ := input
  cases kind
  case ChangePolicy vp =>
    cases vp with
    | Default council =>
        simp only [Contract.add_proposal] at h
        exact Except.noConfusion h
    | Current pol =>
        simp only [Contract.add_proposal] at h
        exact key c' id h
  case Transfer tok recv amt msg =>
    simp only [Contract.add_proposal] at h
    by_cases hv : tok = OLD_BASE_TOKEN ∧ msg.isSome = true
    · rw [if_pos hv] at h
      exact Except.noConfusion h
    · rw [if_neg hv] at h
      exact key c' id h
  all_goals (simp only [Contract.add_proposal] at h; exact key c' id h)

/-- One externally invoked operation against the contract (spec §5:
each executes to completion as a single atomic unit of work). -/
inductive DaoOp
  | add (input : ProposalInput)
  | act (id : Nat) (action : Action) (memo : Option String)
  | callback (id : Nat) (results : List PromiseResult)

/-- Transactional step: a failed operation leaves the state unchanged
(host rollback); a successful `add_proposal` reports the id it
assigned. -/
def Contract.step (c : Contract) (ev : PolicyEval) (op : Env × DaoOp) :
    Contract × Option Nat :=
  match op.2 with
  | .add input =>
    match c.add_proposal op.1 ev input with
    | .ok (c', id) => (c', some id)
    | .error _ => (c, none)
  | .act id action memo => (c.act_proposal_commit op.1 ev id action memo, none)
  | .callback id results =>
    match c.on_proposal_callback id results with
    | .ok c' => (c', none)
    | .error _ => (c, none)

/-- Run a sequence of operations, collecting the ids assigned by the
successful `add_proposal` calls, in order. -/
def Contract.runOps (c : Contract) (ev : PolicyEval) :
    List (Env × DaoOp) → Contract × List Nat
  | [] => (c, [])
  | op :: rest =>
    (((c.step ev op).1.runOps ev rest).1,
      (c.step ev op).2.toList ++ ((c.step ev op).1.runOps ev rest).2)

theorem step_ids (c : Contract) (ev : PolicyEval) (op : Env × DaoOp) :
    ((c.step ev op).2 = none ∧
        (c.step ev op).1.last_proposal_id = c.last_proposal_id) ∨
    ((c.step ev op).2 = some c.last_proposal_id ∧
        (c.step ev op).1.last_proposal_id = (c.last_proposal_id + 1) % 2 ^ 64) := by
  obtain ⟨env, o⟩ := op
  cases o with
  | add input =>
    cases h : c.add_proposal env ev input with
    | error e => left; simp [Contract.step, h]
    | ok r =>
      obtain ⟨c', id⟩ := r
      obtain ⟨h1, h2⟩ := add_proposal_ok c env ev input c' id h
      right
      subst h1
      simp [Contract.step, h, h2]
  | act id action memo =>
    left
    exact ⟨rfl, act_proposal_commit_last_id c env ev id action memo⟩
  | callback id results =>
    cases h : c.on_proposal_callback id results with
    | error e => left; simp [Contract.step, h]
    | ok c' =>
      left
      simp [Contract.step, h, on_proposal_callback_last_id c id results c' h]

theorem runOps_cons (c : Contract) (ev : PolicyEval) (op : Env × DaoOp)
    (rest : List (Env × DaoOp)) :
    c.runOps ev (op :: rest)
      = (((c.step ev op).1.runOps ev rest).1,
          (c.step ev op).2.toList ++ ((c.step ev op).1.runOps ev rest).2) := rfl

theorem runOps_ids_bounded (ev : PolicyEval) (ops : List (Env × DaoOp)) :
    ∀ c : Contract, c.last_proposal_id + ops.length ≤ 2 ^ 64 →
      List.Chain' (· < ·) (c.runOps ev ops).2 ∧
      ∀ i ∈ (c.runOps ev ops).2, c.last_proposal_id ≤ i := by
  induction ops with
  | nil =>
      intro c _
      exact ⟨List.chain'_nil, by intro i hi; cases hi⟩
  | cons op rest ih =>
      intro c hlen
      simp only [List.length_cons] at hlen
      rcases step_ids c ev op with ⟨h2, h1⟩ | ⟨h2, h1⟩
      · have hres := ih (c.step ev op).1 (by rw [h1]; omega)
        rw [runOps_cons]
        simp only [h2, Option.toList_none, List.nil_append]
        refine ⟨hres.1, fun i hi => ?_⟩
        have := hres.2 i hi
        omega
      · by_cases hwrap : c.last_proposal_id + 1 < 2 ^ 64
        · have h1' : (c.step ev op).1.last_proposal_id = c.last_proposal_id + 1 := by
            rw [h1, Nat.mod_eq_of_lt hwrap]
          have hres := ih (c.step ev op).1 (by rw [h1']; omega)
          rw [runOps_cons]
          simp only [h2, Option.toList_some, List.singleton_append]
          constructor
          · refine List.chain'_cons'.mpr ⟨fun y hy => ?_, hres.1⟩
            have := hres.2 y (List.mem_of_mem_head? hy)
            omega
          · intro i hi
            rcases List.mem_cons.mp hi with hEq | hi
            · omega
            · have := hres.2 i hi
              omega
        · have hrl : rest.length = 0 := by omega
          rw [List.length_eq_zero.mp hrl, runOps_cons]
          simp only [h2, Option.toList_some, List.singleton_append]
          refine ⟨?_, fun i hi => ?_⟩
          · simp [Contract.runOps]
          · simp only [Contract.runOps, List.append_nil] at hi
            rcases List.mem_singleton.mp hi with rfl
            exact le_refl _

/-- C8: proposal ids are assigned from a monotonically increasing
counter starting at 0.  Over every sequence of create / act (including
removals) / callback operations (of length at most `2 ^ 64`, the `u64`
counter width), the ids handed out by the successful `add_proposal`
calls are strictly increasing — hence never reused, even after the
record they named has been removed — and each successful `add_proposal`
returns the current counter value and increments it by exactly one. -/
theorem proposal_ids_monotonic (ev : PolicyEval) (c0 : Contract)
    (ops : List (Env × DaoOp))
    (h0 : c0.last_proposal_id = 0) (hlen : ops.length ≤ 2 ^ 64) :
    List.Chain' (· < ·) (c0.runOps ev ops).2 ∧
    (c0.runOps ev ops).2.Nodup ∧
    ∀ (c : Contract) (env : Env) (input : ProposalInput) (c' : Contract) (id : Nat),
      c.add_proposal env ev input = .ok (c', id) →
      id = c.last_proposal_id ∧
      c'.last_proposal_id = (c.last_proposal_id + 1) % 2 ^ 64 := by
  have h := runOps_ids_bounded ev ops c0 (by omega)
  refine ⟨h.1, ?_, fun c env input c' id hh => add_proposal_ok c env ev input c' id hh⟩
  have hp : List.Pairwise (· < ·) (c0.runOps ev ops).2 :=
    List.chain'_iff_pairwise.mp h.1
  exact hp.imp Nat.ne_of_lt

def inputW : ProposalInput := { description := "d", kind := .Vote }

def c0W : Contract :=
  { config := "cfg", policy := .Current polW, proposals := [],
    last_proposal_id := 0 }

def opsW : List (Env × DaoOp) :=
  [(envW, .add inputW), (envW, .act 0 .RemoveProposal none), (envW, .add inputW)]

/-- C8 witness: an add, a removal of the added proposal, and another
add; the assigned ids are `[0, 1]` — strictly increasing, no reuse of
the removed id. -/
theorem proposal_ids_monotonic_witness :
    c0W.last_proposal_id = 0 ∧ opsW.length ≤ 2 ^ 64 ∧
    List.Chain' (· < ·) (c0W.runOps evW opsW).2 ∧
    (c0W.runOps evW opsW).2.Nodup ∧
    (c0W.runOps evW opsW).2 = [0, 1] := by
  have h := proposal_ids_monotonic evW c0W opsW rfl (by decide)
  exact ⟨rfl, by decide, h.1, h.2.1, by decide⟩

end EnergyDao
